import Mathlib

/-!
Shallow embedding of the Ninju build-file generator (src/ninju.py) and
verification of its specification claims.

The embedding models the Python value space that flows through the
configuration API (`NVal`), the statement variants that populate the
Statement Log, the session state (`NState`), and the operations of the
Rule Registry, Reference Algebra, Pool Registry, Name Generator and
Generation walk, each translated directly from the source.
-/

/-- Python values that flow through the Ninju configuration API:
`None`, strings, ints, `_Files` objects (holding their token list),
`_Target` objects (holding the wrapped target value), lists and tuples. -/
inductive NVal where
  | none
  | str (s : String)
  | int (i : Int)
  | vfiles (fs : List NVal)
  | vtarget (t : NVal)
  | list (xs : List NVal)
  | tuple (xs : List NVal)

/-- Module-level constant `NINJU_VERSION` from ninju.py. -/
def NINJU_VERSION : String := "0.1.0"

/-- Module-level constant `NINJU_URL` from ninju.py. -/
def NINJU_URL : String := "https://github.com/frm-adiputra/Ninju"

/-- Module-level constant `NINJA_REQUIRED_VERSION` from ninju.py. -/
def NINJA_REQUIRED_VERSION : String := "1.7"

/-- Python truthiness (`not x` tests) for the modelled values: `None`,
`0`, the empty string, and empty lists/tuples are falsy; `_Files` and
`_Target` objects define no `__bool__`/`__len__` and are always truthy. -/
def falsy : NVal → Bool
  | .none => true
  | .int i => i == 0
  | .str s => s == ""
  | .list xs => xs.isEmpty
  | .tuple xs => xs.isEmpty
  | _ => false

/-- One argument's contribution in `_Files.__init__`: `None` is dropped,
a `_Files` splices its token list, a `_Target` contributes its wrapped
target as one token, a list or tuple splices its elements (one level),
anything else is appended as a single token. -/
def flattenArg : NVal → List NVal
  | .none => []
  | .vfiles fs => fs
  | .vtarget t => [t]
  | .list xs => xs
  | .tuple xs => xs
  | v => [v]

/-- One iteration of the `for f in files` loop of `_Files.__init__`,
mirroring the if/elif chain (append or extend onto the accumulator). -/
def filesInitStep (acc : List NVal) : NVal → List NVal
  | .none => acc
  | .vfiles fs => acc ++ fs
  | .vtarget t => acc ++ [t]
  | .list xs => acc ++ xs
  | .tuple xs => acc ++ xs
  | v => acc ++ [v]

/-- `_Files.__init__(ninju, *files)`: the token list built by folding the
argument list through the if/elif chain, starting from the empty list. -/
def filesInit (args : List NVal) : List NVal :=
  List.foldl filesInitStep [] args

/-- Modelled from the spec: `as_list` of the external statement-emitter
module (imported by ninju.py, not part of this repository's sources).
Per the spec's output-normalization case analysis, a non-list scalar is
wrapped as a one-element list; `None` maps to the empty list and a list
is returned unchanged. -/
def as_list : NVal → List NVal
  | .none => []
  | .list xs => xs
  | v => [v]

/-- `_is_single_output(t)`: true unless `t` is a `_Files` whose token
list has length other than one, or a list/tuple whose length is other
than one.  Every other value (including `None` and plain strings)
passes the check. -/
def is_single_output : NVal → Bool
  | .vfiles fs => fs.length == 1
  | .list xs => xs.length == 1
  | .tuple xs => xs.length == 1
  | _ => true

/-- `_NBuildRule`: the metadata stored when a build rule is registered.
`executable_path` holds the result of the `shutil.which` lookup, or the
raw executable name when the lookup failed (degrade-not-abort). -/
structure NBuildRule where
  name : String
  executable : String
  args : Option String
  description : Option String
  depfile : Option String
  generator : Bool
  pool : Option String
  restat : Bool
  rspfile : Option String
  rspfile_content : Option String
  deps : Option String
  executable_path : String

/-- `_NExecRule`: the metadata stored when an exec rule is registered. -/
structure NExecRule where
  name : String
  executable : String
  args : Option String
  description : Option String
  rspfile : Option String
  rspfile_content : Option String
  executable_path : String

/-- `_NBuild`: a build edge statement.  Fields other than `outputs` and
`rule` are stored verbatim as passed by the caller. -/
structure NBuild where
  outputs : List NVal
  rule : String
  inputs : NVal
  implicit : NVal
  order_only : NVal
  vars : NVal
  implicit_outputs : NVal

/-- The Statement Log's closed variant set: one case per statement class
of ninju.py (`_NVar`, `_NPool`, `_NBuildRule`, `_NExecRule`, `_NBuild`,
`_NPhony`, `_NDefault`). -/
inductive Stmt where
  | nvar (name : String) (value : NVal) (indent : Nat)
  | npool (name : String) (depth : Int)
  | nrule (r : NBuildRule)
  | nexec (r : NExecRule)
  | nbuild (b : NBuild)
  | nphony (name : NVal) (inputs : List NVal)
  | ndefault (targets : List NVal)

/-- The mutable state owned by one `Ninju` session object: the Statement
Log `seq`, the Name Generator counter `_name_count`, the build- and
exec-command registries, and the Pool Registry (set of registered pool
names). -/
structure NState where
  seq : List Stmt
  nameCount : Nat
  cmds : List (String × NBuildRule)
  execCmds : List (String × NExecRule)
  pools : List String

/-- Host environment a session runs against: the `$PATH` lookup
(`shutil.which`), the invoking configuration script's path, and the
absolute paths of the engine module and the external emitter module. -/
structure Env where
  which : String → Option String
  scriptFile : String
  ninjuModulePath : String
  emitterModulePath : String

/-- Errors raised by the embedded operations. -/
inductive NErr where
  | configurationError (msg : String)
  | generatorError (msg : String)

/-- The error message of `_setup_pool`. -/
def poolErrMsg : String := "pool must be an integer greater than 1 or console"

/-- The name produced for counter value `k`:
`${builddir}/.ninju_<k>.<ext>`. -/
def mkGenName (k : Nat) (ext : String) : String :=
  "$\x7bbuilddir\x7d/.ninju_" ++ Nat.repr k ++ "." ++ ext

/-- `Ninju._gen_name`: increments the session counter, then renders the
name carrying the new counter value.  All call sites in the source use
the default extension `tmp`. -/
def Ninju.gen_name (st : NState) (ext : String) : String × NState :=
  let c := st.nameCount + 1
  (mkGenName c ext, { st with nameCount := c })

/-- The `for i in range(outputs)` loop of `_normalize_outputs`: issue
`n` generated names in order. -/
def genNames : Nat → NState → List NVal × NState
  | 0, st => ([], st)
  | n + 1, st =>
    (.str (Ninju.gen_name st "tmp").1
        :: (genNames n (Ninju.gen_name st "tmp").2).1,
     (genNames n (Ninju.gen_name st "tmp").2).2)

/-- `_normalize_outputs(outputs, gen_name)`: falsy values yield one
generated name; an integer `n` yields `range(n)` generated names; a
`_Files` yields its verbatim token list; a list is used as-is; anything
else goes through the emitter module's `as_list`. -/
def normalize_outputs (outputs : NVal) (st : NState) : List NVal × NState :=
  if falsy outputs then
    ([.str (Ninju.gen_name st "tmp").1], (Ninju.gen_name st "tmp").2)
  else
    match outputs with
    | .int n => genNames n.toNat st
    | .vfiles fs => (fs, st)
    | .list xs => (xs, st)
    | v => (as_list v, st)

/-- `_NBuildRule.build_fn`: the bound build command.  Normalizes the
requested outputs, appends one `_NBuild` whose implicit inputs are
`files(executable_path, implicit)` (the resolved executable path
prepended to the flattened caller-supplied implicit inputs), and
returns `files(*outs)`. -/
def NBuildRule.build_fn (r : NBuildRule)
    (inputs outputs implicit order_only vars implicit_outputs : NVal)
    (st : NState) : NState × NVal :=
  let outs := (normalize_outputs outputs st).1
  let st1 := (normalize_outputs outputs st).2
  let b : NBuild :=
    { outputs := outs
      rule := r.name
      inputs := inputs
      implicit := .vfiles (filesInit [.str r.executable_path, implicit])
      order_only := order_only
      vars := vars
      implicit_outputs := implicit_outputs }
  ({ st1 with seq := st1.seq ++ [.nbuild b] }, .vfiles (filesInit outs))

/-- `_NExecRule.exec_fn`: the bound exec command.  Raises a
`ConfigurationError` when `_is_single_output(target)` fails; otherwise
normalizes `target` into the edge's outputs, appends one `_NBuild`
(with no implicit inputs), and returns `_Files(ninju, target)`. -/
def NExecRule.exec_fn (r : NExecRule) (target inputs vars : NVal)
    (st : NState) : Except NErr (NState × NVal) :=
  if !(is_single_output target) then
    .error (.configurationError "exec_cmd can only have one target")
  else
    let outs := (normalize_outputs target st).1
    let st1 := (normalize_outputs target st).2
    let b : NBuild :=
      { outputs := outs
        rule := r.name
        inputs := inputs
        implicit := .none
        order_only := .none
        vars := vars
        implicit_outputs := .none }
    .ok ({ st1 with seq := st1.seq ++ [.nbuild b] }, .vfiles (filesInit [target]))

/-- `Ninju._setup_pool`: `None` means no pool; an integer depth `d ≥ 1`
maps to the name `pool_<d>`, appending one `_NPool` statement on first
request and caching the name; the literal string `console` is returned
unchanged; everything else raises a `ConfigurationError`. -/
def Ninju.setup_pool (st : NState) (pool : NVal) :
    Except NErr (Option String × NState) :=
  match pool with
  | .none => .ok (Option.none, st)
  | .int d =>
    if d < 1 then .error (.configurationError poolErrMsg)
    else
      let pool_name := "pool_" ++ toString d
      if st.pools.contains pool_name then .ok (some pool_name, st)
      else
        .ok (some pool_name,
          { st with seq := st.seq ++ [.npool pool_name d],
                    pools := pool_name :: st.pools })
  | .str s =>
    if s == "console" then .ok (some s, st)
    else .error (.configurationError poolErrMsg)
  | _ => .error (.configurationError poolErrMsg)

/-- The `_NBuildRule` constructor including the `shutil.which`
resolution with fallback to the raw executable name. -/
def mkNBuildRule (env : Env) (name executable : String)
    (args description depfile : Option String) (generator : Bool)
    (pool : Option String) (restat : Bool)
    (rspfile rspfile_content deps : Option String) : NBuildRule :=
  { name := name
    executable := executable
    args := args
    description := description
    depfile := depfile
    generator := generator
    pool := pool
    restat := restat
    rspfile := rspfile
    rspfile_content := rspfile_content
    deps := deps
    executable_path := (env.which executable).getD executable }

/-- The `_NExecRule` constructor including the `shutil.which`
resolution with fallback to the raw executable name. -/
def mkNExecRule (env : Env) (name executable : String)
    (args description rspfile rspfile_content : Option String) : NExecRule :=
  { name := name
    executable := executable
    args := args
    description := description
    rspfile := rspfile
    rspfile_content := rspfile_content
    executable_path := (env.which executable).getD executable }

/-- `Ninju.cmd`: registers a build rule.  Resolves the pool first (this
may append a `_NPool` statement or raise), appends one `_NBuildRule`
statement, and binds the build command under `name`. -/
def Ninju.cmd (env : Env) (st : NState) (name executable : String)
    (args description depfile : Option String) (generator : Bool)
    (pool : NVal) (restat : Bool)
    (rspfile rspfile_content deps : Option String) : Except NErr NState :=
  match Ninju.setup_pool st pool with
  | .error e => .error e
  | .ok p =>
    let v := mkNBuildRule env name executable args description depfile
      generator p.1 restat rspfile rspfile_content deps
    .ok { p.2 with seq := p.2.seq ++ [.nrule v], cmds := (name, v) :: p.2.cmds }

/-- `Ninju.exec_cmd`: registers an exec rule, appending one
`_NExecRule` statement and binding the exec command under `name`. -/
def Ninju.exec_cmd (env : Env) (st : NState) (name executable : String)
    (args description rspfile rspfile_content : Option String) : NState :=
  let v := mkNExecRule env name executable args description rspfile rspfile_content
  { st with seq := st.seq ++ [.nexec v], execCmds := (name, v) :: st.execCmds }

/-- `Ninju.var`: appends one `_NVar` statement and returns the
`${key}` reference string. -/
def Ninju.var (st : NState) (key : String) (value : NVal) : String × NState :=
  ("$\x7b" ++ key ++ "\x7d", { st with seq := st.seq ++ [.nvar key value 0] })

/-- `Ninju.files(*args)`: builds a `_Files` reference by flattening. -/
def Ninju.files (args : List NVal) : NVal :=
  .vfiles (filesInit args)

/-- `Ninju.root(*args)` for a single argument: a `_Files` over
`os.path.join('${root}', arg)`. -/
def Ninju.root (arg : String) : NVal :=
  .vfiles [.str ("$\x7broot\x7d/" ++ arg)]

/-- `Ninju.default(*targets)`: appends one `_NDefault` statement over
the flattened targets. -/
def Ninju.default (st : NState) (targets : List NVal) : NState :=
  { st with seq := st.seq ++ [.ndefault (filesInit targets)] }

/-- `_Target.phony(inputs)`: appends one `_NPhony` statement mapping
the target's name to the flattened inputs. -/
def Target.phony (st : NState) (target : NVal) (inputs : NVal) : NState :=
  { st with seq := st.seq ++ [.nphony target (filesInit [inputs])] }

/-- `_Files.__getattr__` dispatch: look up a registered build command
by name and invoke it with this reference's token list as `inputs`;
`none` models the `AttributeError` for an unregistered name. -/
def Files.callCmd (st : NState) (cmdName : String) (p : List NVal)
    (outputs implicit order_only vars implicit_outputs : NVal) :
    Option (NState × NVal) :=
  match st.cmds.lookup cmdName with
  | some r =>
    some (r.build_fn (.list p) outputs implicit order_only vars
      implicit_outputs st)
  | Option.none => Option.none

/-- `_Target.__getattr__` dispatch: look up a registered exec command
by name and invoke it with this reference's target as the fixed
`target` argument; `none` models the `AttributeError`. -/
def Target.callCmd (st : NState) (cmdName : String) (target : NVal)
    (inputs vars : NVal) : Option (Except NErr (NState × NVal)) :=
  match st.execCmds.lookup cmdName with
  | some r => some (r.exec_fn target inputs vars st)
  | Option.none => Option.none

/-- `Ninju.__init__` (Session Bootstrap), with the directory guard
passing: appends the `ninja_required_version`, `root` and `builddir`
vars, registers the built-in `configure` rule bound to the
invoking script (marked as generator), and appends the
self-regeneration edge `files().configure(root(build_file),
implicit=[NINJU_MODULE_PATH, <emitter module path>])`. -/
def Ninju.mk (env : Env) (build_file build_dir : String) : NState :=
  let st0 : NState :=
    { seq := [], nameCount := 0, cmds := [], execCmds := [], pools := [] }
  let st1 := (Ninju.var st0 "ninja_required_version" (.str NINJA_REQUIRED_VERSION)).2
  let st2 := (Ninju.var st1 "root" (.str ".")).2
  let st3 := (Ninju.var st2 "builddir" (.str ("$\x7broot\x7d/" ++ build_dir))).2
  let st4 :=
    match Ninju.cmd env st3 "configure" env.scriptFile Option.none
        (some "Regenerate ninja build file") Option.none true .none false
        Option.none Option.none Option.none with
    | .ok s => s
    | .error _ => st3
  match Files.callCmd st4 "configure" [] (Ninju.root build_file)
      (.list [.str env.ninjuModulePath, .str env.emitterModulePath])
      .none .none .none with
  | some (s, _) => s
  | Option.none => st4

/-- One entry of the serialized output: the header comment, a blank
separator line, or a statement handed to the external emitter. -/
inductive Event where
  | comment (s : String)
  | blank
  | stmt (s : Stmt)

/-- A statement's `write(writer)` call: hands the statement to the
external emitter, except that a `_NBuild` with an empty output list
raises a `GeneratorError` instead. -/
def Stmt.write : Stmt → Except NErr Stmt
  | .nbuild b =>
    if b.outputs.isEmpty then .error (.generatorError "no output")
    else .ok (.nbuild b)
  | s => .ok s

/-- The `for task in self._seq` loop of `Ninju._generate`: write each
statement in log order, optionally followed by a blank separator. -/
def serializeSeq : List Stmt → Bool → Except NErr (List Event)
  | [], _ => .ok []
  | s :: rest, nl =>
    match s.write with
    | .error e => .error e
    | .ok s' =>
      match serializeSeq rest nl with
      | .error e => .error e
      | .ok evs => .ok (.stmt s' :: ((if nl then [Event.blank] else []) ++ evs))

/-- `Ninju._generate`: the version-stamped header comment, a blank
line, then the Statement Log serialized front-to-back. -/
def Ninju.generateSeq (st : NState) (newline : Bool) : Except NErr (List Event) :=
  match serializeSeq st.seq newline with
  | .error e => .error e
  | .ok body =>
    .ok (.comment ("This file is generated by Ninju v" ++ NINJU_VERSION
      ++ " (" ++ NINJU_URL ++ ")") :: .blank :: body)

/-- The statement carried by an event, if any. -/
def Event.stmtOf : Event → Option Stmt
  | .stmt s => some s
  | _ => Option.none

/-!
Helper development: injectivity of the decimal rendering used by the
Name Generator, and characterizations of the flattening fold and of the
serialization walk.
-/

/-- Numeric value of a decimal digit character. -/
def decDigit (c : Char) : Nat := c.toNat - 48

/-- Left-to-right decimal decoding of a character list. -/
def decodeAux : List Char → Nat → Nat
  | [], a => a
  | c :: cs, a => decodeAux cs (a * 10 + decDigit c)

/-- Structural reformulation of `Nat.toDigits 10`. -/
def toDigitsSimp (n : Nat) : List Char :=
  if _h : n < 10 then [Nat.digitChar n]
  else toDigitsSimp (n / 10) ++ [Nat.digitChar (n % 10)]
termination_by n
decreasing_by
  exact Nat.div_lt_self (by omega) (by omega)

theorem toDigitsCore_eq (fuel : Nat) : ∀ (n : Nat) (ds : List Char), n < fuel →
    Nat.toDigitsCore 10 fuel n ds = toDigitsSimp n ++ ds := by
  induction fuel with
  | zero => intro n ds h; omega
  | succ fuel ih =>
    intro n ds h
    show (if n / 10 = 0 then Nat.digitChar (n % 10) :: ds
          else Nat.toDigitsCore 10 fuel (n / 10) (Nat.digitChar (n % 10) :: ds))
        = toDigitsSimp n ++ ds
    by_cases h10 : n / 10 = 0
    · have hn : n < 10 := by omega
      rw [if_pos h10, toDigitsSimp, dif_pos hn, Nat.mod_eq_of_lt hn]
      rfl
    · have hn : ¬ n < 10 := by omega
      rw [if_neg h10, ih (n / 10) _ (by omega)]
      conv_rhs => rw [toDigitsSimp]
      rw [dif_neg hn, List.append_assoc]
      rfl

theorem toDigits_eq (n : Nat) : Nat.toDigits 10 n = toDigitsSimp n := by
  show Nat.toDigitsCore 10 (n + 1) n [] = _
  rw [toDigitsCore_eq (n + 1) n [] (Nat.lt_succ_self n), List.append_nil]

theorem decodeAux_append (xs ys : List Char) (a : Nat) :
    decodeAux (xs ++ ys) a = decodeAux ys (decodeAux xs a) := by
  induction xs generalizing a with
  | nil => rfl
  | cons c cs ih =>
    show decodeAux (cs ++ ys) (a * 10 + decDigit c)
        = decodeAux ys (decodeAux cs (a * 10 + decDigit c))
    exact ih _

theorem decDigit_digitChar : ∀ d : Nat, d < 10 → decDigit (Nat.digitChar d) = d := by
  decide

theorem decodeAux_toDigitsSimp (n : Nat) : ∀ a : Nat,
    decodeAux (toDigitsSimp n) a = a * 10 ^ (toDigitsSimp n).length + n := by
  induction n using Nat.strong_induction_on with
  | _ n ih =>
    intro a
    rw [toDigitsSimp]
    by_cases h : n < 10
    · rw [dif_pos h]
      show decodeAux [] (a * 10 + decDigit (Nat.digitChar n)) = _
      rw [decDigit_digitChar n h]
      show a * 10 + n = a * 10 ^ (1 : Nat) + n
      rw [pow_one]
    · rw [dif_neg h, decodeAux_append, ih (n / 10) (Nat.div_lt_self (by omega) (by omega)) a]
      show (a * 10 ^ (toDigitsSimp (n / 10)).length + n / 10) * 10
          + decDigit (Nat.digitChar (n % 10)) = _
      rw [decDigit_digitChar (n % 10) (Nat.mod_lt n (by omega))]
      rw [List.length_append, List.length_singleton]
      calc (a * 10 ^ (toDigitsSimp (n / 10)).length + n / 10) * 10 + n % 10
          = a * (10 ^ (toDigitsSimp (n / 10)).length * 10)
            + (10 * (n / 10) + n % 10) := by ring
        _ = a * 10 ^ ((toDigitsSimp (n / 10)).length + 1) + n := by
            rw [pow_succ, Nat.div_add_mod]

theorem toDigitsSimp_inj {m n : Nat} (h : toDigitsSimp m = toDigitsSimp n) :
    m = n := by
  have hm := decodeAux_toDigitsSimp m 0
  have hn := decodeAux_toDigitsSimp n 0
  rw [h] at hm
  simpa [hn] using hm.symm

theorem Nat_repr_inj {m n : Nat} (h : Nat.repr m = Nat.repr n) : m = n := by
  have h2 : Nat.toDigits 10 m = Nat.toDigits 10 n := congrArg String.data h
  rw [toDigits_eq, toDigits_eq] at h2
  exact toDigitsSimp_inj h2

theorem mkGenName_inj {j k : Nat} {ext : String}
    (h : mkGenName j ext = mkGenName k ext) : j = k := by
  have hd : ((("$\x7bbuilddir\x7d/.ninju_".data ++ (Nat.repr j).data)
      ++ ".".data) ++ ext.data)
      = ((("$\x7bbuilddir\x7d/.ninju_".data ++ (Nat.repr k).data)
      ++ ".".data) ++ ext.data) := by
    simpa [mkGenName, String.data_append] using congrArg String.data h
  have h1 := List.append_cancel_right hd
  have h2 := List.append_cancel_right h1
  have h3 := List.append_cancel_left h2
  exact Nat_repr_inj (String.ext h3)

theorem filesInitStep_eq (acc : List NVal) (v : NVal) :
    filesInitStep acc v = acc ++ flattenArg v := by
  cases v <;> simp [filesInitStep, flattenArg]

theorem foldl_filesInitStep (args : List NVal) : ∀ acc : List NVal,
    List.foldl filesInitStep acc args = acc ++ args.flatMap flattenArg := by
  induction args with
  | nil => intro acc; simp
  | cons a args ih =>
    intro acc
    show List.foldl filesInitStep (filesInitStep acc a) args = _
    rw [ih, filesInitStep_eq, List.flatMap_cons, List.append_assoc]

theorem filesInit_eq_flatMap (args : List NVal) :
    filesInit args = args.flatMap flattenArg := by
  show List.foldl filesInitStep [] args = _
  rw [foldl_filesInitStep]
  rfl

/-- A statement whose `write` raises: a build edge with no outputs. -/
def badStmt : Stmt → Bool
  | .nbuild b => b.outputs.isEmpty
  | _ => false

theorem write_ok_of_not_bad {s : Stmt} (h : badStmt s = false) :
    Stmt.write s = .ok s := by
  cases s with
  | nbuild b =>
    have hb : b.outputs.isEmpty = false := h
    simp [Stmt.write, hb]
  | _ => rfl

theorem write_ok_eq {s t : Stmt} (h : Stmt.write s = .ok t) : t = s := by
  cases s with
  | nbuild b =>
    have h2 : (if b.outputs.isEmpty
        then (Except.error (NErr.generatorError "no output") : Except NErr Stmt)
        else .ok (.nbuild b)) = .ok t := h
    by_cases hb : b.outputs.isEmpty
    · rw [if_pos hb] at h2; cases h2
    · rw [if_neg hb] at h2; cases h2; rfl
  | nvar a b c => cases h; rfl
  | npool a b => cases h; rfl
  | nrule r => cases h; rfl
  | nexec r => cases h; rfl
  | nphony a b => cases h; rfl
  | ndefault ts => cases h; rfl

theorem serializeSeq_ok_stmts {seq : List Stmt} {nl : Bool} {evs : List Event}
    (h : serializeSeq seq nl = .ok evs) :
    evs.filterMap Event.stmtOf = seq := by
  induction seq generalizing evs with
  | nil => cases h; rfl
  | cons s rest ih =>
    revert h
    show (match Stmt.write s with
      | .error e => .error e
      | .ok s' =>
        match serializeSeq rest nl with
        | .error e => .error e
        | .ok evs2 =>
          .ok (.stmt s' :: ((if nl then [Event.blank] else []) ++ evs2)))
        = Except.ok evs → _
    cases hw : Stmt.write s with
    | error e => intro h; cases h
    | ok s' =>
      cases hs : serializeSeq rest nl with
      | error e => intro h; cases h
      | ok evs2 =>
        intro h
        cases h
        have hs' := write_ok_eq hw
        subst hs'
        cases nl <;> simp [Event.stmtOf, ih hs]

theorem serializeSeq_error_of_bad {seq : List Stmt} (nl : Bool)
    (h : ∃ s ∈ seq, badStmt s = true) :
    serializeSeq seq nl = .error (.generatorError "no output") := by
  induction seq with
  | nil => simp at h
  | cons s rest ih =>
    show (match Stmt.write s with
      | .error e => .error e
      | .ok s' =>
        match serializeSeq rest nl with
        | .error e => .error e
        | .ok evs2 =>
          .ok (.stmt s' :: ((if nl then [Event.blank] else []) ++ evs2)))
        = Except.error (.generatorError "no output")
    by_cases hb : badStmt s = true
    · cases s with
      | nbuild b =>
        have : b.outputs.isEmpty = true := hb
        simp [Stmt.write, this]
      | nvar a b c => simp [badStmt] at hb
      | npool a b => simp [badStmt] at hb
      | nrule r => simp [badStmt] at hb
      | nexec r => simp [badStmt] at hb
      | nphony a b => simp [badStmt] at hb
      | ndefault t => simp [badStmt] at hb
    · have hw := write_ok_of_not_bad (by simpa using hb)
      rw [hw]
      have hrest : ∃ t ∈ rest, badStmt t = true := by
        rcases h with ⟨t, ht, hbt⟩
        rcases List.mem_cons.mp ht with rfl | hmem
        · exact absurd hbt hb
        · exact ⟨t, hmem, hbt⟩
      rw [ih hrest]

/-- The state with one statement appended to the Statement Log. -/
def afterAppend (st : NState) (s : Stmt) : NState :=
  { st with seq := st.seq ++ [s] }

/-- The `_NBuild` record created by `exec_fn`: only `outputs`, `rule`,
`inputs` and `variables` are populated. -/
def execEdge (ruleName : String) (outs : List NVal) (inputs vs : NVal) : NBuild :=
  { outputs := outs
    rule := ruleName
    inputs := inputs
    implicit := .none
    order_only := .none
    vars := vs
    implicit_outputs := .none }

/-- The `_NBuild` record created by `build_fn`. -/
def buildEdge (ruleName : String) (outs : List NVal)
    (inputs implicit oo vs io : NVal) : NBuild :=
  { outputs := outs
    rule := ruleName
    inputs := inputs
    implicit := implicit
    order_only := oo
    vars := vs
    implicit_outputs := io }

/-!
Concrete fixtures used by witnesses and counterexamples.
-/

/-- A concrete host environment: every executable resolves to
`/usr/bin/gcc`. -/
def env0 : Env :=
  { which := fun _ => some "/usr/bin/gcc"
    scriptFile := "/proj/configure.py"
    ninjuModulePath := "/lib/ninju.py"
    emitterModulePath := "/lib/emitter.py" }

/-- A bare session state with an empty Statement Log. -/
def stF : NState :=
  { seq := [], nameCount := 0, cmds := [], execCmds := [], pools := [] }

/-- A concrete registered build rule (`cmd('cc', 'gcc')`). -/
def rB : NBuildRule :=
  mkNBuildRule env0 "cc" "gcc" Option.none Option.none Option.none false
    Option.none false Option.none Option.none Option.none

/-- A concrete registered exec rule (`exec_cmd('deploy', 'scp')`). -/
def rE : NExecRule :=
  mkNExecRule env0 "deploy" "scp" Option.none Option.none Option.none Option.none

/-!
Characterizations of the Name Generator trace and the Pool Registry.
-/

/-- The trace of `n` successive `_gen_name` calls within one session. -/
def issueNames : Nat → NState → List String × NState
  | 0, st => ([], st)
  | n + 1, st =>
    ((Ninju.gen_name st "tmp").1
        :: (issueNames n (Ninju.gen_name st "tmp").2).1,
     (issueNames n (Ninju.gen_name st "tmp").2).2)

theorem genNames_eq (n : Nat) : ∀ st : NState,
    genNames n st
      = ((List.range n).map (fun i => .str (mkGenName (st.nameCount + 1 + i) "tmp")),
         { st with nameCount := st.nameCount + n }) := by
  induction n with
  | zero => intro st; show ([], st) = _; simp
  | succ n ih =>
    intro st
    show (.str (mkGenName (st.nameCount + 1) "tmp")
        :: (genNames n { st with nameCount := st.nameCount + 1 }).1,
        (genNames n { st with nameCount := st.nameCount + 1 }).2) = _
    rw [ih]
    refine congrArg₂ Prod.mk ?_ ?_
    · rw [List.range_succ_eq_map, List.map_cons, List.map_map]
      refine congrArg₂ List.cons (by rw [Nat.add_zero]) ?_
      refine List.map_congr_left ?_
      intro a _
      show NVal.str (mkGenName (st.nameCount + 1 + 1 + a) "tmp")
          = .str (mkGenName (st.nameCount + 1 + (a + 1)) "tmp")
      have h : st.nameCount + 1 + 1 + a = st.nameCount + 1 + (a + 1) := by omega
      rw [h]
    · have h : st.nameCount + 1 + n = st.nameCount + (n + 1) := by omega
      rw [h]

theorem issueNames_eq (n : Nat) : ∀ st : NState,
    issueNames n st
      = ((List.range n).map (fun i => mkGenName (st.nameCount + 1 + i) "tmp"),
         { st with nameCount := st.nameCount + n }) := by
  induction n with
  | zero => intro st; show ([], st) = _; simp
  | succ n ih =>
    intro st
    show (mkGenName (st.nameCount + 1) "tmp"
        :: (issueNames n { st with nameCount := st.nameCount + 1 }).1,
        (issueNames n { st with nameCount := st.nameCount + 1 }).2) = _
    rw [ih]
    refine congrArg₂ Prod.mk ?_ ?_
    · rw [List.range_succ_eq_map, List.map_cons, List.map_map]
      refine congrArg₂ List.cons (by rw [Nat.add_zero]) ?_
      refine List.map_congr_left ?_
      intro a _
      show mkGenName (st.nameCount + 1 + 1 + a) "tmp"
          = mkGenName (st.nameCount + 1 + (a + 1)) "tmp"
      have h : st.nameCount + 1 + 1 + a = st.nameCount + 1 + (a + 1) := by omega
      rw [h]
    · have h : st.nameCount + 1 + n = st.nameCount + (n + 1) := by omega
      rw [h]

theorem ninju_mk_nameCount (env : Env) (bf bd : String) :
    (Ninju.mk env bf bd).nameCount = 0 := rfl

theorem setup_pool_fresh {st : NState} {d : Int} (hd : 1 ≤ d)
    (hfresh : st.pools.contains ("pool_" ++ toString d) = false) :
    Ninju.setup_pool st (.int d)
      = .ok (some ("pool_" ++ toString d),
          { st with seq := st.seq ++ [.npool ("pool_" ++ toString d) d],
                    pools := ("pool_" ++ toString d) :: st.pools }) := by
  show (if d < 1
      then (Except.error (NErr.configurationError poolErrMsg)
        : Except NErr (Option String × NState))
      else if st.pools.contains ("pool_" ++ toString d) = true
        then Except.ok (some ("pool_" ++ toString d), st)
        else Except.ok (some ("pool_" ++ toString d),
          { st with seq := st.seq ++ [.npool ("pool_" ++ toString d) d],
                    pools := ("pool_" ++ toString d) :: st.pools })) = _
  rw [if_neg (by omega : ¬ d < 1), if_neg (by simpa using hfresh)]

theorem setup_pool_cached {st : NState} {d : Int} (hd : 1 ≤ d)
    (hcached : st.pools.contains ("pool_" ++ toString d) = true) :
    Ninju.setup_pool st (.int d) = .ok (some ("pool_" ++ toString d), st) := by
  show (if d < 1
      then (Except.error (NErr.configurationError poolErrMsg)
        : Except NErr (Option String × NState))
      else if st.pools.contains ("pool_" ++ toString d) = true
        then Except.ok (some ("pool_" ++ toString d), st)
        else Except.ok (some ("pool_" ++ toString d),
          { st with seq := st.seq ++ [.npool ("pool_" ++ toString d) d],
                    pools := ("pool_" ++ toString d) :: st.pools })) = _
  rw [if_neg (by omega : ¬ d < 1), if_pos hcached]

/-- Iterated pool requests for the same integer depth within one
session: the trace of `N` successive `_setup_pool(d)` calls. -/
def setupPoolRun (d : Int) : Nat → NState → Except NErr (List (Option String) × NState)
  | 0, st => .ok ([], st)
  | n + 1, st =>
    Ninju.setup_pool st (.int d) >>= fun p =>
      setupPoolRun d n p.2 >>= fun rest =>
        .ok (p.1 :: rest.1, rest.2)

theorem setupPoolRun_cached (d : Int) (hd : 1 ≤ d) (n : Nat) : ∀ st : NState,
    st.pools.contains ("pool_" ++ toString d) = true →
    setupPoolRun d n st = .ok (List.replicate n (some ("pool_" ++ toString d)), st) := by
  induction n with
  | zero => intro st _; rfl
  | succ n ih =>
    intro st h
    show (Ninju.setup_pool st (.int d) >>= fun p =>
      setupPoolRun d n p.2 >>= fun rest =>
        Except.ok (p.1 :: rest.1, rest.2)) = _
    rw [setup_pool_cached hd h]
    show (setupPoolRun d n st >>= fun rest =>
      Except.ok (some ("pool_" ++ toString d) :: rest.1, rest.2)) = _
    rw [ih st h]
    rfl

/-- C8: Pool registration is idempotent by depth: for every positive
integer depth `d`, requesting `d` any number `N ≥ 2` of times appends
exactly one PoolDef statement for `d` (on the first request only) and
returns the identical deterministic name `pool_<d>` on every request. -/
theorem c8_pool_idempotent_by_depth (d : Int) (N : Nat) (st : NState)
    (hd : 1 ≤ d) (hN : 2 ≤ N)
    (hfresh : st.pools.contains ("pool_" ++ toString d) = false) :
    setupPoolRun d N st
      = .ok (List.replicate N (some ("pool_" ++ toString d)),
          { st with seq := st.seq ++ [.npool ("pool_" ++ toString d) d],
                    pools := ("pool_" ++ toString d) :: st.pools }) := by
  cases N with
  | zero => omega
  | succ n =>
    show (Ninju.setup_pool st (.int d) >>= fun p =>
      setupPoolRun d n p.2 >>= fun rest =>
        Except.ok (p.1 :: rest.1, rest.2)) = _
    rw [setup_pool_fresh hd hfresh]
    show (setupPoolRun d n
        { st with seq := st.seq ++ [.npool ("pool_" ++ toString d) d],
                  pools := ("pool_" ++ toString d) :: st.pools }
      >>= fun rest =>
        Except.ok (some ("pool_" ++ toString d) :: rest.1, rest.2)) = _
    rw [setupPoolRun_cached d hd n _ (by simp)]
    rfl

/-- Witness for C8 at depth 2, requested twice from a bare session. -/
theorem c8_pool_idempotent_by_depth_witness :
    setupPoolRun 2 2 stF
      = .ok ([some "pool_2", some "pool_2"],
          { stF with seq := [.npool "pool_2" 2], pools := ["pool_2"] }) :=
  c8_pool_idempotent_by_depth 2 2 stF (by omega) (by omega) rfl

/-- C7: Within one session, every generated name has the form
`<build-output-dir>/.ninju_<counter>.<ext>` with the counter starting
at 1 and incrementing by one per name issued; hence the k-th issued
name carries counter value k and all names issued across an entire
session are pairwise distinct. -/
theorem c7_generated_names_distinct (env : Env) (bf bd : String) (n : Nat) :
    (issueNames n (Ninju.mk env bf bd)).1
      = (List.range n).map (fun i => mkGenName (i + 1) "tmp")
    ∧ ((issueNames n (Ninju.mk env bf bd)).1).Nodup
    ∧ (issueNames n (Ninju.mk env bf bd)).2.nameCount = n
    ∧ (∀ st : NState, Ninju.gen_name st "tmp"
        = (mkGenName (st.nameCount + 1) "tmp",
           { st with nameCount := st.nameCount + 1 }))
    ∧ (Ninju.mk env bf bd).nameCount = 0 := by
  have hmap : (issueNames n (Ninju.mk env bf bd)).1
      = (List.range n).map (fun i => mkGenName (i + 1) "tmp") := by
    rw [issueNames_eq, ninju_mk_nameCount]
    refine List.map_congr_left ?_
    intro a _
    have h : 0 + 1 + a = a + 1 := by omega
    rw [h]
  refine ⟨hmap, ?_, ?_, fun st => rfl, rfl⟩
  · rw [hmap]
    refine List.Nodup.map ?_ (List.nodup_range n)
    intro a b hab
    have := mkGenName_inj hab
    omega
  · rw [issueNames_eq, ninju_mk_nameCount]
    show 0 + n = n
    omega

/-- C9: Constructing a FileRef flattens its argument list: a `None`
argument is dropped, a FileRef argument has its tokens spliced in, a
TargetRef argument contributes its name as one token, a list or tuple
argument has its elements spliced in preserving iteration order, and no
deduplication occurs; in particular
`[None, ["a","b"], FileRef(["c"]), TargetRef("d")]` yields the token
sequence `["a","b","c","d"]`. -/
theorem c9_fileref_flattening :
    (∀ args : List NVal, filesInit args = args.flatMap flattenArg)
    ∧ flattenArg .none = []
    ∧ (∀ fs, flattenArg (.vfiles fs) = fs)
    ∧ (∀ t, flattenArg (.vtarget t) = [t])
    ∧ (∀ xs, flattenArg (.list xs) = xs)
    ∧ (∀ xs, flattenArg (.tuple xs) = xs)
    ∧ filesInit [NVal.none, .list [.str "a", .str "b"], .vfiles [.str "c"],
        .vtarget (.str "d")] = [.str "a", .str "b", .str "c", .str "d"]
    ∧ filesInit [NVal.str "a", .str "a"] = [.str "a", .str "a"] :=
  ⟨filesInit_eq_flatMap, rfl, fun _ => rfl, fun _ => rfl, fun _ => rfl,
   fun _ => rfl, rfl, rfl⟩

/-- C10: Invoking a bound exec command with `target = None` (or the
empty string, another falsy scalar that is neither a FileRef nor a
list/tuple) does not raise the single-target ConfigurationError: the
call succeeds and appends a BuildEdge whose single output is a freshly
generated placeholder name from the Name Generator. -/
theorem c10_exec_falsy_target (r : NExecRule) (inputs vs : NVal) (st : NState) :
    (r.exec_fn .none inputs vs st
      = .ok (afterAppend { st with nameCount := st.nameCount + 1 }
          (.nbuild (execEdge r.name [.str (mkGenName (st.nameCount + 1) "tmp")]
            inputs vs)),
        .vfiles []))
    ∧ (r.exec_fn (.str "") inputs vs st
      = .ok (afterAppend { st with nameCount := st.nameCount + 1 }
          (.nbuild (execEdge r.name [.str (mkGenName (st.nameCount + 1) "tmp")]
            inputs vs)),
        .vfiles [.str ""]))
    := ⟨rfl, rfl⟩

/-- C1: For every sequence of configuration calls in one session,
serializing the Statement Log emits the statements in exactly the order
they were appended: whenever generation succeeds, the statements handed
to the external emitter are exactly the Statement Log, in order, with
no reordering, deduplication or removal, independent of which component
produced each statement. -/
theorem c1_serialize_preserves_order (st : NState) (nl : Bool)
    (evs : List Event) (h : Ninju.generateSeq st nl = .ok evs) :
    evs.filterMap Event.stmtOf = st.seq := by
  revert h
  show (match serializeSeq st.seq nl with
    | Except.error e => Except.error e
    | Except.ok body =>
      Except.ok (Event.comment ("This file is generated by Ninju v"
        ++ NINJU_VERSION ++ " (" ++ NINJU_URL ++ ")") :: Event.blank :: body))
      = Except.ok evs → _
  cases hs : serializeSeq st.seq nl with
  | error e => intro h; cases h
  | ok body =>
    intro h
    cases h
    simpa [Event.stmtOf] using serializeSeq_ok_stmts hs

/-- Witness for C1 on a concrete two-statement log. -/
theorem c1_serialize_preserves_order_witness :
    ([Event.comment ("This file is generated by Ninju v0.1.0 "
        ++ "(https://github.com/frm-adiputra/Ninju)"),
      Event.blank,
      Event.stmt (.nvar "root" (.str ".") 0), Event.blank,
      Event.stmt (.npool "pool_2" 2), Event.blank].filterMap Event.stmtOf)
      = ({ stF with seq := [.nvar "root" (.str ".") 0, .npool "pool_2" 2] }
          : NState).seq :=
  c1_serialize_preserves_order
    { stF with seq := [.nvar "root" (.str ".") 0, .npool "pool_2" 2] } true
    [Event.comment ("This file is generated by Ninju v0.1.0 "
        ++ "(https://github.com/frm-adiputra/Ninju)"),
      Event.blank,
      Event.stmt (.nvar "root" (.str ".") 0), Event.blank,
      Event.stmt (.npool "pool_2" 2), Event.blank] rfl

theorem setup_pool_none (st : NState) :
    Ninju.setup_pool st .none = .ok (Option.none, st) := rfl

theorem setup_pool_console (st : NState) :
    Ninju.setup_pool st (.str "console") = .ok (some "console", st) := rfl

theorem genNames_snd_seq (n : Nat) (st : NState) : (genNames n st).2.seq = st.seq := by
  rw [genNames_eq]

theorem normalize_outputs_snd_seq (o : NVal) (st : NState) :
    ((normalize_outputs o st).2).seq = st.seq := by
  unfold normalize_outputs
  by_cases hf : falsy o
  · rw [if_pos hf]
    rfl
  · rw [if_neg hf]
    cases o with
    | int n => exact genNames_snd_seq _ _
    | none => rfl
    | str s => rfl
    | vfiles fs => rfl
    | vtarget t => rfl
    | list xs => rfl
    | tuple xs => rfl

theorem cmd_seq_of_setup (env : Env) (st st1 st' : NState) (pool : NVal)
    (pn : Option String) (name exe : String) (a de dep : Option String)
    (g rs : Bool) (rf rfc deps : Option String)
    (hsp : Ninju.setup_pool st pool = .ok (pn, st1))
    (h : Ninju.cmd env st name exe a de dep g pool rs rf rfc deps = .ok st') :
    st'.seq = st1.seq
      ++ [.nrule (mkNBuildRule env name exe a de dep g pn rs rf rfc deps)] := by
  revert h
  show (match Ninju.setup_pool st pool with
    | Except.error e => Except.error e
    | Except.ok p =>
      Except.ok { p.2 with
        seq := p.2.seq ++ [Stmt.nrule (mkNBuildRule env name exe a de dep g
          p.1 rs rf rfc deps)],
        cmds := (name, mkNBuildRule env name exe a de dep g p.1 rs rf rfc deps)
          :: p.2.cmds }) = Except.ok st' → _
  rw [hsp]
  intro h
  cases h
  rfl

/-- C2 counterexample: registering a build rule via `cmd` with a fresh
integer pool argument (`pool=2` on a bare session) appends two
statements — one PoolDef and one BuildRuleDef — not exactly one. -/
theorem c2_counterexample :
    (Ninju.cmd env0 stF "cc" "gcc" Option.none Option.none Option.none false
        (.int 2) false Option.none Option.none Option.none).toOption.map
      (fun s => s.seq.length) = some 2
    ∧ (2 : Nat) ≠ 1 :=
  ⟨rfl, by omega⟩

/-- C2 (amended): every Rule Registry / Reference Algebra call that
declares statements appends exactly one statement to the Statement Log
— registering an exec rule, registering a build rule via `cmd` with
pool `None`, `console`, or an already-registered integer depth, and
invoking a bound build or exec command — except that `cmd` with an
integer pool depth not yet registered appends exactly two statements
(the PoolDef for that depth followed by the BuildRuleDef). -/
theorem c2_statements_appended_per_call (env : Env) (st : NState) :
    (∀ name exe a de rf rfc,
      (Ninju.exec_cmd env st name exe a de rf rfc).seq.length
        = st.seq.length + 1)
    ∧ (∀ name exe a de dep g rs rf rfc deps st',
        Ninju.cmd env st name exe a de dep g .none rs rf rfc deps = .ok st' →
        st'.seq.length = st.seq.length + 1)
    ∧ (∀ name exe a de dep g rs rf rfc deps st',
        Ninju.cmd env st name exe a de dep g (.str "console") rs rf rfc deps
          = .ok st' →
        st'.seq.length = st.seq.length + 1)
    ∧ (∀ (d : Int) name exe a de dep g rs rf rfc deps st', 1 ≤ d →
        st.pools.contains ("pool_" ++ toString d) = true →
        Ninju.cmd env st name exe a de dep g (.int d) rs rf rfc deps = .ok st' →
        st'.seq.length = st.seq.length + 1)
    ∧ (∀ (d : Int) name exe a de dep g rs rf rfc deps st', 1 ≤ d →
        st.pools.contains ("pool_" ++ toString d) = false →
        Ninju.cmd env st name exe a de dep g (.int d) rs rf rfc deps = .ok st' →
        st'.seq.length = st.seq.length + 2)
    ∧ (∀ r inputs outputs implicit oo vs io,
        (NBuildRule.build_fn r inputs outputs implicit oo vs io st).1.seq.length
          = st.seq.length + 1)
    ∧ (∀ r target inputs vs st' ref,
        NExecRule.exec_fn r target inputs vs st = .ok (st', ref) →
        st'.seq.length = st.seq.length + 1) := by
  refine ⟨?_, ?_, ?_, ?_, ?_, ?_, ?_⟩
  · intro name exe a de rf rfc
    show (st.seq ++ [Stmt.nexec (mkNExecRule env name exe a de rf rfc)]).length
        = st.seq.length + 1
    simp
  · intro name exe a de dep g rs rf rfc deps st' h
    rw [cmd_seq_of_setup env st st st' .none Option.none name exe a de dep g rs
      rf rfc deps (setup_pool_none st) h]
    simp
  · intro name exe a de dep g rs rf rfc deps st' h
    rw [cmd_seq_of_setup env st st st' (.str "console") (some "console") name
      exe a de dep g rs rf rfc deps (setup_pool_console st) h]
    simp
  · intro d name exe a de dep g rs rf rfc deps st' hd hc h
    rw [cmd_seq_of_setup env st st st' (.int d) (some ("pool_" ++ toString d))
      name exe a de dep g rs rf rfc deps (setup_pool_cached hd hc) h]
    simp
  · intro d name exe a de dep g rs rf rfc deps st' hd hc h
    rw [cmd_seq_of_setup env st
      { st with seq := st.seq ++ [.npool ("pool_" ++ toString d) d],
                pools := ("pool_" ++ toString d) :: st.pools }
      st' (.int d) (some ("pool_" ++ toString d))
      name exe a de dep g rs rf rfc deps (setup_pool_fresh hd hc) h]
    simp
  · intro r inputs outputs implicit oo vs io
    show ((normalize_outputs outputs st).2.seq ++ [_]).length = st.seq.length + 1
    rw [List.length_append, normalize_outputs_snd_seq]
    rfl
  · intro r target inputs vs st' ref h
    revert h
    show (if !(is_single_output target) then _ else Except.ok _) = _ → _
    by_cases ht : is_single_output target
    · rw [if_neg (by simp [ht])]
      intro h
      cases h
      show ((normalize_outputs target st).2.seq ++ [_]).length = st.seq.length + 1
      rw [List.length_append, normalize_outputs_snd_seq]
      rfl
    · rw [if_pos (by simp [ht])]
      intro h
      cases h

/-- Witness for C2: a build rule registered with a fresh pool depth 3
on a bare session yields a log of two statements. -/
theorem c2_statements_appended_per_call_witness :
    ∃ st', Ninju.cmd env0 stF "cc" "gcc" Option.none Option.none Option.none
        false (.int 3) false Option.none Option.none Option.none = .ok st'
      ∧ st'.seq.length = stF.seq.length + 2 := by
  refine ⟨_, rfl, ?_⟩
  exact (c2_statements_appended_per_call env0 stF).2.2.2.2.1 3 "cc" "gcc"
    Option.none Option.none Option.none false false Option.none Option.none
    Option.none _ (by omega) rfl rfl

/-- A plain scalar token (a string or an int): a value whose
flattening contribution is itself. -/
def isPlainTok : NVal → Bool
  | .str _ => true
  | .int _ => true
  | _ => false

theorem flattenArg_plain {v : NVal} (h : isPlainTok v = true) :
    flattenArg v = [v] := by
  cases v <;> simp_all [isPlainTok, flattenArg]

theorem filesInit_plain {xs : List NVal} (h : ∀ v ∈ xs, isPlainTok v = true) :
    filesInit xs = xs := by
  rw [filesInit_eq_flatMap]
  induction xs with
  | nil => rfl
  | cons a as ih =>
    rw [List.flatMap_cons, flattenArg_plain (h a (by simp)),
      ih (fun v hv => h v (by simp [hv]))]
    rfl

/-- C3 counterexample: calling a bound build command with
`outputs=[None]` normalizes to the one-element list `[None]`, but the
returned FileRef's token list is the flattening of those outputs —
the empty list — not the normalized outputs themselves. -/
theorem c3_counterexample :
    (rB.build_fn (.str "a.c") (.list [.none]) .none .none .none .none stF).2
      = .vfiles []
    ∧ (normalize_outputs (.list [.none]) stF).1 = [.none]
    ∧ (NVal.vfiles [] : NVal) ≠ .vfiles [.none] := by
  refine ⟨rfl, rfl, ?_⟩
  intro h
  simp at h

/-- C3 (amended): for every registered build rule, calling its bound
build command appends exactly one BuildEdge referencing that rule whose
implicit-input list is the rule's resolved executable path prepended to
the flattened caller-supplied implicit inputs, and returns a new
FileRef over the flattening of the normalized outputs (equal to the
normalized outputs themselves whenever these are plain scalar tokens,
as generated names are); with outputs omitted in a fresh session's
first such call, the edge's single output is the Name Generator's first
issued name. -/
theorem c3_build_cmd_edge (r : NBuildRule)
    (inputs outputs implicit oo vs io : NVal) (st : NState) :
    (r.build_fn inputs outputs implicit oo vs io st).1.seq
      = st.seq ++ [.nbuild (buildEdge r.name (normalize_outputs outputs st).1
          inputs (.vfiles (.str r.executable_path :: flattenArg implicit))
          oo vs io)]
    ∧ (r.build_fn inputs outputs implicit oo vs io st).2
        = .vfiles (filesInit (normalize_outputs outputs st).1)
    ∧ ((∀ v ∈ (normalize_outputs outputs st).1, isPlainTok v = true) →
        (r.build_fn inputs outputs implicit oo vs io st).2
          = .vfiles (normalize_outputs outputs st).1)
    ∧ (outputs = .none → st.nameCount = 0 →
        (normalize_outputs outputs st).1 = [.str (mkGenName 1 "tmp")])
    ∧ (∀ env bf bd, (Ninju.mk env bf bd).nameCount = 0) := by
  have hpair : filesInit [.str r.executable_path, implicit]
      = .str r.executable_path :: flattenArg implicit := by
    rw [filesInit_eq_flatMap]
    simp [flattenArg]
  refine ⟨?_, rfl, ?_, ?_, fun env bf bd => rfl⟩
  · show (normalize_outputs outputs st).2.seq
        ++ [.nbuild (buildEdge r.name (normalize_outputs outputs st).1 inputs
          (.vfiles (filesInit [.str r.executable_path, implicit])) oo vs io)]
      = _
    rw [normalize_outputs_snd_seq, hpair]
  · intro hp
    show NVal.vfiles (filesInit (normalize_outputs outputs st).1) = _
    rw [filesInit_plain hp]
  · intro ho hc
    subst ho
    show [NVal.str (mkGenName (st.nameCount + 1) "tmp")] = _
    rw [hc]

/-- Witness for C3 on `cmd('cc','gcc')` invoked with outputs omitted on
a counter-fresh session state. -/
theorem c3_build_cmd_edge_witness :
    ((rB.build_fn (.str "a.c") .none .none .none .none .none stF).2
      = .vfiles (normalize_outputs .none stF).1)
    ∧ (normalize_outputs (.none : NVal) stF).1 = [.str (mkGenName 1 "tmp")] := by
  refine ⟨?_, ?_⟩
  · exact (c3_build_cmd_edge rB (.str "a.c") .none .none .none .none .none
      stF).2.2.1
      (by
        intro v hv
        have he : (normalize_outputs NVal.none stF).1
            = [.str (mkGenName 1 "tmp")] := rfl
        rw [he, List.mem_singleton] at hv
        subst hv
        rfl)
  · exact (c3_build_cmd_edge rB (.str "a.c") .none .none .none .none .none
      stF).2.2.2.1 rfl rfl

theorem is_single_output_false_iff (t : NVal) :
    is_single_output t = false ↔
      (match t with
        | .vfiles fs => fs.length ≠ 1
        | .list xs => xs.length ≠ 1
        | .tuple xs => xs.length ≠ 1
        | _ => False) := by
  cases t <;> simp [is_single_output]

/-- C4 counterexample: the exec command's single-target check passes
every non-FileRef non-list scalar, so `target=None` (whose flattened
token set is empty, not of size one) succeeds instead of raising the
ConfigurationError; moreover the returned reference is a FileRef (a
`_Files`), not a TargetRef. -/
theorem c4_counterexample :
    (rE.exec_fn .none .none .none stF).toOption.map (fun p => p.2)
      = some (.vfiles [])
    ∧ (filesInit [NVal.none]).length = 0
    ∧ (rE.exec_fn (.str "x") .none .none stF).toOption.map (fun p => p.2)
      = some (.vfiles [.str "x"])
    ∧ (∀ t : NVal, NVal.vfiles [.str "x"] ≠ .vtarget t) :=
  ⟨rfl, rfl, rfl, fun _ h => NVal.noConfusion h⟩

/-- C4 (amended): invoking a bound exec command raises a
ConfigurationError if and only if the target argument is a FileRef
whose token count is not one or a list/tuple whose length is not one
(any scalar, including `None` and the empty string, passes the check);
on success it appends a BuildEdge whose outputs are the normalized
target and returns a FileRef (not a TargetRef) over the flattened
target — for a nonempty single string name, exactly that name. -/
theorem c4_exec_single_target (r : NExecRule) (target inputs vs : NVal)
    (st : NState) :
    ((∃ e, r.exec_fn target inputs vs st = .error e) ↔
      (match target with
        | .vfiles fs => fs.length ≠ 1
        | .list xs => xs.length ≠ 1
        | .tuple xs => xs.length ≠ 1
        | _ => False))
    ∧ (is_single_output target = false →
        r.exec_fn target inputs vs st
          = .error (.configurationError "exec_cmd can only have one target"))
    ∧ (∀ st' ref, r.exec_fn target inputs vs st = .ok (st', ref) →
        st'.seq = st.seq ++ [.nbuild (execEdge r.name
            (normalize_outputs target st).1 inputs vs)]
        ∧ ref = .vfiles (filesInit [target]))
    ∧ (∀ s, target = .str s → s ≠ "" →
        (normalize_outputs target st).1 = [.str s]
        ∧ filesInit [target] = [.str s]) := by
  by_cases ht : is_single_output target
  · have hok : r.exec_fn target inputs vs st
        = .ok (afterAppend (normalize_outputs target st).2
            (.nbuild (execEdge r.name (normalize_outputs target st).1 inputs vs)),
          .vfiles (filesInit [target])) := by
      show (if !(is_single_output target) then _ else Except.ok _) = _
      rw [ht]
      rfl
    refine ⟨?_, ?_, ?_, ?_⟩
    · rw [← is_single_output_false_iff]
      constructor
      · intro he
        rcases he with ⟨e, he⟩
        rw [hok] at he
        cases he
      · intro hf
        rw [ht] at hf
        cases hf
    · intro hf
      rw [ht] at hf
      cases hf
    · intro st' ref h
      rw [hok] at h
      cases h
      constructor
      · show (normalize_outputs target st).2.seq ++ _ = _
        rw [normalize_outputs_snd_seq]
      · rfl
    · intro s hs hne
      subst hs
      constructor
      · unfold normalize_outputs
        rw [if_neg (by simp [falsy, hne])]
        rfl
      · rfl
  · have herr : r.exec_fn target inputs vs st
        = .error (.configurationError "exec_cmd can only have one target") := by
      show (if !(is_single_output target) then
          Except.error (NErr.configurationError "exec_cmd can only have one target")
        else _) = _
      rw [(by simpa using ht : is_single_output target = false)]
      rfl
    refine ⟨?_, fun _ => herr, ?_, ?_⟩
    · rw [← is_single_output_false_iff]
      exact ⟨fun _ => by simpa using ht, fun _ => ⟨_, herr⟩⟩
    · intro st' ref h
      rw [herr] at h
      cases h
    · intro s hs hne
      subst hs
      exact (ht rfl).elim

/-- Witness for C4: a two-element list target raises the
ConfigurationError, and a single string target succeeds with that name
as output and token list. -/
theorem c4_exec_single_target_witness :
    rE.exec_fn (.list [.str "x", .str "y"]) .none .none stF
      = .error (.configurationError "exec_cmd can only have one target")
    ∧ ((normalize_outputs (.str "x") stF).1 = [.str "x"]
        ∧ filesInit [NVal.str "x"] = [.str "x"])
    ∧ ((afterAppend stF (.nbuild (execEdge "deploy" [.str "x"] .none .none))).seq
          = stF.seq ++ [.nbuild (execEdge rE.name
              (normalize_outputs (.str "x") stF).1 .none .none)]
        ∧ (NVal.vfiles [.str "x"] : NVal) = .vfiles (filesInit [.str "x"])) :=
  ⟨(c4_exec_single_target rE (.list [.str "x", .str "y"]) .none .none stF).2.1
      rfl,
   (c4_exec_single_target rE (.str "x") .none .none stF).2.2.2 "x" rfl
      (by simp),
   (c4_exec_single_target rE (.str "x") .none .none stF).2.2.1
      (afterAppend stF (.nbuild (execEdge "deploy" [.str "x"] .none .none)))
      (.vfiles [.str "x"]) rfl⟩

/-- C5 counterexample: invoking a build command with a zero-length
outputs collection (an empty FileRef) does not raise at edge-append
time — the call returns normally and the zero-output edge is in the
log — and the GeneratorError is raised only when generation serializes
the Statement Log. -/
theorem c5_counterexample :
    (rB.build_fn (.str "a.c") (.vfiles []) .none .none .none .none stF).1.seq
      = [.nbuild (buildEdge "cc" [] (.str "a.c")
          (.vfiles [.str "/usr/bin/gcc"]) .none .none .none)]
    ∧ Ninju.generateSeq
        (rB.build_fn (.str "a.c") (.vfiles []) .none .none .none .none stF).1
        true
      = .error (.generatorError "no output") :=
  ⟨rfl, rfl⟩

/-- C5 (amended): a build command invoked with a zero-length outputs
collection appends the zero-output BuildEdge normally — no error is
raised by the build-command call itself — and the GeneratorError is
raised at generation time, when the Statement Log is serialized and the
zero-output edge's write is attempted. -/
theorem c5_zero_outputs_generator_error (r : NBuildRule)
    (inputs implicit oo vs io : NVal) (st : NState) (nl : Bool) :
    (r.build_fn inputs (.vfiles []) implicit oo vs io st).1.seq
      = st.seq ++ [.nbuild (buildEdge r.name [] inputs
          (.vfiles (filesInit [.str r.executable_path, implicit])) oo vs io)]
    ∧ Ninju.generateSeq
        (r.build_fn inputs (.vfiles []) implicit oo vs io st).1 nl
      = .error (.generatorError "no output") := by
  refine ⟨rfl, ?_⟩
  show (match serializeSeq
      (r.build_fn inputs (.vfiles []) implicit oo vs io st).1.seq nl with
    | Except.error e => Except.error e
    | Except.ok body =>
      Except.ok (Event.comment ("This file is generated by Ninju v"
        ++ NINJU_VERSION ++ " (" ++ NINJU_URL ++ ")") :: Event.blank :: body))
      = Except.error (.generatorError "no output")
  rw [serializeSeq_error_of_bad nl ?_]
  refine ⟨.nbuild (buildEdge r.name [] inputs
      (.vfiles (filesInit [.str r.executable_path, implicit])) oo vs io), ?_, rfl⟩
  show _ ∈ st.seq ++ [_]
  exact List.mem_append_right _ (List.mem_singleton_self _)

/-- C6 counterexample: `_normalize_outputs` keys its first case on
Python falsiness, so the integer 0 yields one generated name (the
claim's integer case demands zero names), the empty list yields one
generated name (the claim demands it be used as-is, i.e. stay empty),
and the empty string yields one generated name (the claim demands the
wrapped list containing the empty string). -/
theorem c6_counterexample :
    (normalize_outputs (.int 0) stF).1 = [.str (mkGenName 1 "tmp")]
    ∧ (normalize_outputs (.list []) stF).1 = [.str (mkGenName 1 "tmp")]
    ∧ (normalize_outputs (.str "") stF).1 = [.str (mkGenName 1 "tmp")]
    ∧ ([.str (mkGenName 1 "tmp")] : List NVal) ≠ []
    ∧ ([.str (mkGenName 1 "tmp")] : List NVal) ≠ [.str ""] := by
  refine ⟨rfl, rfl, rfl, by simp, ?_⟩
  intro h
  simp only [List.cons.injEq, NVal.str.injEq, and_true] at h
  exact (by decide : ¬ (mkGenName 1 "tmp" = "")) h

/-- C6 (amended): output normalization resolves by case in this
precedence order, with the first case keyed on Python falsiness rather
than only on absence/None: a falsy requested value (absent/None, the
integer 0, the empty string, an empty list or tuple) yields exactly one
generated name; a positive integer N yields exactly N distinct
generated names (carrying the next N counter values; a negative
integer yields zero names); an existing FileRef yields its verbatim
token list; a nonempty list is used as-is; any other truthy value —
a nonempty string, a TargetRef, a nonempty tuple — is wrapped as a
one-element list. -/
theorem c6_normalize_outputs_cases (outputs : NVal) (st : NState) :
    (falsy outputs = true →
      normalize_outputs outputs st
        = ([.str (mkGenName (st.nameCount + 1) "tmp")],
           { st with nameCount := st.nameCount + 1 }))
    ∧ (∀ n : Int, outputs = .int n → 0 < n →
        (normalize_outputs outputs st).1
            = (List.range n.toNat).map
              (fun i => .str (mkGenName (st.nameCount + 1 + i) "tmp"))
          ∧ (normalize_outputs outputs st).1.length = n.toNat
          ∧ (normalize_outputs outputs st).1.Nodup)
    ∧ (∀ n : Int, outputs = .int n → n < 0 →
        (normalize_outputs outputs st).1 = [])
    ∧ (∀ fs, outputs = .vfiles fs → normalize_outputs outputs st = (fs, st))
    ∧ (∀ xs, outputs = .list xs → xs ≠ [] →
        normalize_outputs outputs st = (xs, st))
    ∧ (∀ s, outputs = .str s → s ≠ "" →
        normalize_outputs outputs st = ([.str s], st))
    ∧ (∀ t, outputs = .vtarget t →
        normalize_outputs outputs st = ([.vtarget t], st))
    ∧ (∀ xs, outputs = .tuple xs → xs ≠ [] →
        normalize_outputs outputs st = ([.tuple xs], st)) := by
  refine ⟨?_, ?_, ?_, ?_, ?_, ?_, ?_, ?_⟩
  · intro hf
    unfold normalize_outputs
    rw [if_pos hf]
    rfl
  · intro n ho hn
    subst ho
    have hf : falsy (.int n) = false := by
      simp only [falsy, beq_eq_false_iff_ne, ne_eq]
      omega
    have hno : normalize_outputs (.int n) st = genNames n.toNat st := by
      unfold normalize_outputs
      rw [if_neg (by simp [hf])]
    rw [hno, genNames_eq]
    refine ⟨rfl, by simp, ?_⟩
    refine List.Nodup.map ?_ (List.nodup_range _)
    intro a b hab
    have h2 := mkGenName_inj (NVal.str.inj hab)
    omega
  · intro n ho hn
    subst ho
    have hf : falsy (.int n) = false := by
      simp only [falsy, beq_eq_false_iff_ne, ne_eq]
      omega
    have hno : normalize_outputs (.int n) st = genNames n.toNat st := by
      unfold normalize_outputs
      rw [if_neg (by simp [hf])]
    rw [hno]
    have h0 : n.toNat = 0 := by omega
    rw [h0]
    rfl
  · intro fs ho
    subst ho
    rfl
  · intro xs ho hne
    subst ho
    unfold normalize_outputs
    rw [if_neg (by simp [falsy, hne])]
  · intro s ho hne
    subst ho
    unfold normalize_outputs
    rw [if_neg (by simp [falsy, hne])]
    rfl
  · intro t ho
    subst ho
    rfl
  · intro xs ho hne
    subst ho
    unfold normalize_outputs
    rw [if_neg (by simp [falsy, hne])]
    rfl

/-- Witness for C6: `outputs=3` yields three distinct generated names,
a nonempty list is used as-is, and a nonempty string is wrapped. -/
theorem c6_normalize_outputs_cases_witness :
    ((normalize_outputs (.int 3) stF).1
        = [.str (mkGenName 1 "tmp"), .str (mkGenName 2 "tmp"),
           .str (mkGenName 3 "tmp")]
      ∧ (normalize_outputs (.int 3) stF).1.length = 3
      ∧ (normalize_outputs (.int 3) stF).1.Nodup)
    ∧ normalize_outputs (.list [.str "a"]) stF = ([.str "a"], stF)
    ∧ normalize_outputs (.str "x") stF = ([.str "x"], stF) := by
  have h3 := (c6_normalize_outputs_cases (.int 3) stF).2.1 3 rfl (by omega)
  have hl := (c6_normalize_outputs_cases (.list [.str "a"]) stF).2.2.2.2.1
    [.str "a"] rfl (by simp)
  have hs := (c6_normalize_outputs_cases (.str "x") stF).2.2.2.2.2.1
    "x" rfl (by simp)
  exact ⟨⟨h3.1, h3.2.1, h3.2.2⟩, hl, hs⟩
